import Mathlib

/-!
Verification of the negroni middleware pipeline (Go, package negroni).

The repository holds two variants of the same package:
  * src/unnamed/part_000 — the annotated variant: middleware stores a
    precomputed nextfn, build folds the whole handler list, Use rejects nil
    handlers with a panic, Run resolves its address via detectAddress.
  * src/negroni.go — the older variant: middleware stores a pointer to the
    next node and checks the response sink written flag before invoking its
    handler, build(i, handlers) indexes without a bounds guard, Use performs
    no nil check, Run reads HOST and PORT with port defaulting to 3000.

Both are embedded below over a common exchange state.  A Go panic is
modelled as an Except.error; machine effects (logging, actual sockets) are
outside the embedded core.
-/

set_option autoImplicit false

namespace Negronispec

/-- Modelled from the spec: the response-sink wrapper (NewResponseWriter /
ResponseWriter, defined in responsewriter.go which is not under src/) wraps
the response surface and tracks a written flag that flips on first output
(spec section 4.1).  An Exchange is the per-request state a handler can see:
the wrapped sink written flag and an observation trace recording, in order,
the identities of the handlers that ran. -/
structure Exchange where
  written : Bool
  trace : List Nat
deriving DecidableEq, Repr

/-- Go panics that can arise in the embedded code. -/
inductive Err where
  /-- Calling ServeHTTP on a nil Handler interface value. -/
  | nilHandler
  /-- Dereferencing a nil next pointer or invoking a nil nextfn. -/
  | nilNext
  /-- handlers[i] with i out of range (negroni.go build). -/
  | indexOutOfRange
  /-- part_000 Use: panic "handler cannot be nil". -/
  | panicNilUse
deriving DecidableEq, Repr

/-- The type of the next http.HandlerFunc continuation, returning the final
exchange state or a panic. -/
abbrev Cont := Exchange → Except Err Exchange

/-- negroni.Handler / negroni.HandlerFunc: ServeHTTP(rw, r, next).  The
handler receives the continuation and the current exchange state. -/
abbrev HandlerF := Cont → Cont

/-- The middleware chain.  A Go middleware struct holds a Handler interface
value (possibly nil, hence Option) and a reference to the next element:
either a real middleware value or nil (a nil *middleware next pointer in
negroni.go, a nil nextfn in part_000), which nilNode models. -/
inductive Mw where
  | nilNode : Mw
  | node (handler : Option HandlerF) (next : Mw) : Mw

/-- The zero value middleware{}: nil handler, nil next reference. -/
def zeroMw : Mw := Mw.node none Mw.nilNode

/-- part_000 newMiddleware(handler, next): the Go code stores next.ServeHTTP;
here the node keeps the next middleware value, whose serve method is exactly
that bound function. -/
def newMiddleware (handler : Option HandlerF) (next : Mw) : Mw :=
  Mw.node handler next

/-- negroni.go voidHandler(rw, r, next) — does nothing and never invokes
next.  part_000 builds its sentinel from a textually identical anonymous
no-op function, so the same definition embeds both. -/
def voidHandler : HandlerF := fun _next ex => Except.ok ex

/-- part_000 voidMiddleware(): the terminal sentinel — a no-op handler in
front of the zero middleware value. -/
def voidMiddleware : Mw := newMiddleware (some voidHandler) zeroMw

/-- negroni.go sentinel literal middleware{HandlerFunc(voidHandler),
&middleware{}} used in New and in build. -/
def sentinelGo : Mw := Mw.node (some voidHandler) zeroMw

/-- part_000 middleware.ServeHTTP: m.handler.ServeHTTP(rw, r, m.nextfn).
A nil handler interface panics at the call; a nil nextfn is passed along
harmlessly and panics only if the handler invokes it. -/
def Mw.serve : Mw → Exchange → Except Err Exchange
  | .nilNode, _ => Except.error Err.nilNext
  | .node none _, _ => Except.error Err.nilHandler
  | .node (some hf) next, ex => hf next.serve ex

/-- negroni.go middleware.ServeHTTP: checks the wrapped sink written flag
and only then calls h.handler.ServeHTTP(rw, r, h.next.ServeHTTP).  Taking
the method value h.next.ServeHTTP on a nil next pointer panics while the
arguments are evaluated, before the handler itself runs. -/
def Mw.serveW : Mw → Exchange → Except Err Exchange
  | .nilNode, _ => Except.error Err.nilNext
  | .node h next, ex =>
    if ex.written then Except.ok ex
    else
      match next with
      | .nilNode => Except.error Err.nilNext
      | .node _ _ =>
        match h with
        | none => Except.error Err.nilHandler
        | some hf => hf next.serveW ex

/-- part_000 build(handlers): empty list yields the sentinel directly, a
longer list recurses on the tail, a singleton pairs its handler with the
sentinel. -/
def build : List (Option HandlerF) → Mw
  | [] => voidMiddleware
  | h :: rest =>
    let next : Mw :=
      match rest with
      | [] => voidMiddleware
      | _ :: _ => build rest
    newMiddleware h next

/-- negroni.go build(i, handlers): reads handlers[i] with no bounds guard
(out of range panics), recurses on i+1 while i < len(handlers)-1, and ends
with the sentinel literal. -/
def buildGo (i : Nat) (handlers : List (Option HandlerF)) : Except Err Mw :=
  match handlers[i]? with
  | none => Except.error Err.indexOutOfRange
  | some h =>
    if _hlt : i < handlers.length - 1 then
      match buildGo (i + 1) handlers with
      | Except.error e => Except.error e
      | Except.ok next => Except.ok (Mw.node h next)
    else
      Except.ok (Mw.node h sentinelGo)
termination_by handlers.length - i
decreasing_by omega

/-- The Negroni pipeline: the built chain head and the handler list.  Both
source variants declare the same two fields. -/
structure Negroni where
  middleware : Mw
  handlers : List (Option HandlerF)

/-- part_000 New(handlers...): stores the list and builds the chain at
once. -/
def New (handlers : List (Option HandlerF)) : Negroni :=
  { handlers := handlers, middleware := build handlers }

/-- negroni.go New(): no handlers, and the sentinel installed directly
without calling build. -/
def NewGo : Negroni :=
  { middleware := Mw.node (some voidHandler) zeroMw, handlers := [] }

/-- part_000 Negroni.ServeHTTP: wraps the response surface with
NewResponseWriter (modelled from the spec as the identity on the already
wrapped Exchange state, section 4.1) and serves through the chain head. -/
def Negroni.serveHTTP (n : Negroni) (ex : Exchange) : Except Err Exchange :=
  n.middleware.serve ex

/-- negroni.go Negroni.ServeHTTP, dispatching through the written-checking
node semantics. -/
def Negroni.serveHTTPGo (n : Negroni) (ex : Exchange) : Except Err Exchange :=
  n.middleware.serveW ex

/-- part_000 Negroni.Use: panics on a nil handler, otherwise appends and
rebuilds the chain in the same call. -/
def Negroni.use (n : Negroni) (handler : Option HandlerF) : Except Err Negroni :=
  match handler with
  | none => Except.error Err.panicNilUse
  | some _ =>
    Except.ok { middleware := build (n.handlers ++ [handler]),
                handlers := n.handlers ++ [handler] }

/-- negroni.go Negroni.Use: no nil check; appends and calls build(0, list). -/
def Negroni.useGo (n : Negroni) (handler : Option HandlerF) : Except Err Negroni :=
  match buildGo 0 (n.handlers ++ [handler]) with
  | Except.error e => Except.error e
  | Except.ok m => Except.ok { middleware := m, handlers := n.handlers ++ [handler] }

/-- part_000 Negroni.Handlers: returns the current handler list. -/
def Negroni.Handlers (n : Negroni) : List (Option HandlerF) :=
  n.handlers

/-- part_000 Negroni.With: copies the receiver handler list, appends the
supplied handlers and returns New of the concatenation.  The result pairs
the receiver state after the call (the method assigns no receiver field and
copies n.handlers, so the derived slice never aliases the receiver) with the
derived pipeline. -/
def Negroni.With (n : Negroni) (handlers : List (Option HandlerF)) : Negroni × Negroni :=
  (n, New (n.handlers ++ handlers))

/-- Sequencing several part_000 Use calls, propagating a panic. -/
def useAll (n : Negroni) : List (Option HandlerF) → Except Err Negroni
  | [] => Except.ok n
  | h :: t =>
    match n.use h with
    | Except.error e => Except.error e
    | Except.ok n2 => useAll n2 t

/-- part_000 DefaultAddress. -/
def DefaultAddress : String := ":8080"

/-- part_000 detectAddress(addr...), with the PORT environment variable
passed explicitly. -/
def detectAddress (addr : List String) (portEnv : String) : String :=
  match addr with
  | a :: _ => a
  | [] => if portEnv ≠ "" then ":" ++ portEnv else DefaultAddress

/-- negroni.go Run address computation (lines 71 to 80): PORT defaulting to
3000, prefixed by HOST; Run takes no address argument in this variant. -/
def runAddressGo (portEnv hostEnv : String) : String :=
  let port := if portEnv == "" then "3000" else portEnv
  hostEnv ++ ":" ++ port

/-- A hypothetical well-behaved handler: performs a state action and then
invokes its continuation exactly once, with no action afterwards. -/
def oneShot (act : Exchange → Exchange) : HandlerF :=
  fun next ex => next (act ex)

/-- Record handler identity k in the trace. -/
def pushTrace (k : Nat) (ex : Exchange) : Exchange :=
  { ex with trace := ex.trace ++ [k] }

/-- A handler that records its identity and yields to the chain once. -/
def tracingHandler (k : Nat) : HandlerF :=
  oneShot (pushTrace k)

/-- A handler that records its identity and withholds its continuation. -/
def haltingHandler (k : Nat) : HandlerF :=
  fun _next ex => Except.ok (pushTrace k ex)

/-- The handlers stored along a chain, following next references. -/
def Mw.chain : Mw → List (Option HandlerF)
  | .nilNode => []
  | .node h next => h :: next.chain

/-- How many nodes of a chain actually wrap a handler. -/
def Mw.handlerNodes (m : Mw) : Nat :=
  (m.chain.filter Option.isSome).length

example : Mw.serve (build [some (tracingHandler 0), some (tracingHandler 1)]) ⟨false, []⟩
    = Except.ok ⟨false, [0, 1]⟩ := rfl

example : Mw.serve voidMiddleware ⟨true, [5]⟩ = Except.ok ⟨true, [5]⟩ := rfl

example : Mw.serveW (Mw.node (some (tracingHandler 3)) sentinelGo) ⟨true, []⟩
    = Except.ok ⟨true, []⟩ := rfl

/-! Helper lemmas about the chain builders. -/

theorem sentinelGo_eq_void : sentinelGo = voidMiddleware := rfl

theorem build_cons_ne (h : Option HandlerF) (t : List (Option HandlerF)) (hne : t ≠ []) :
    build (h :: t) = newMiddleware h (build t) := by
  cases t with
  | nil => exact absurd rfl hne
  | cons a b => rfl

theorem build_isNode (t : List (Option HandlerF)) :
    ∃ h m, build t = Mw.node h m := by
  cases t with
  | nil => exact ⟨some voidHandler, zeroMw, rfl⟩
  | cons a b =>
    cases b with
    | nil => exact ⟨a, voidMiddleware, rfl⟩
    | cons c d => exact ⟨a, build (c :: d), rfl⟩

theorem chain_build (hs : List (Option HandlerF)) :
    (build hs).chain = hs ++ [some voidHandler, none] := by
  induction hs with
  | nil => rfl
  | cons h rest ih =>
    cases rest with
    | nil => rfl
    | cons r rs =>
      rw [build_cons_ne h (r :: rs) (by simp)]
      show h :: (build (r :: rs)).chain = _
      rw [ih]
      rfl

theorem serve_build_oneShot (acts : List (Exchange → Exchange)) :
    ∀ ex : Exchange,
      (build (acts.map fun a => some (oneShot a))).serve ex
        = Except.ok (acts.foldl (fun e a => a e) ex) := by
  induction acts with
  | nil => intro ex; rfl
  | cons a rest ih =>
    intro ex
    cases rest with
    | nil => rfl
    | cons b bs =>
      rw [List.map_cons, build_cons_ne _ _ (by simp)]
      show Mw.serve (build ((b :: bs).map fun a => some (oneShot a))) (a ex) = _
      rw [ih (a ex)]
      rfl

theorem foldl_pushTrace (ids : List Nat) :
    ∀ w : Bool, ∀ t : List Nat,
      (ids.map pushTrace).foldl (fun e a => a e) ⟨w, t⟩ = ⟨w, t ++ ids⟩ := by
  induction ids with
  | nil => intro w t; simp
  | cons k ks ih =>
    intro w t
    show (ks.map pushTrace).foldl (fun e a => a e) (pushTrace k ⟨w, t⟩) = _
    rw [show pushTrace k ⟨w, t⟩ = ⟨w, t ++ [k]⟩ from rfl, ih]
    simp

theorem serve_build_halt (pres : List Nat) :
    ∀ (j : Nat) (rest : List (Option HandlerF)) (ex : Exchange),
      (build (pres.map (fun k => some (tracingHandler k))
          ++ some (haltingHandler j) :: rest)).serve ex
        = Except.ok ⟨ex.written, ex.trace ++ pres ++ [j]⟩ := by
  induction pres with
  | nil =>
    intro j rest ex
    rw [List.append_nil]
    cases rest with
    | nil => rfl
    | cons r rs => rfl
  | cons k ks ih =>
    intro j rest ex
    rw [List.map_cons, List.cons_append, build_cons_ne _ _ (by simp)]
    show Mw.serve (build (ks.map (fun k => some (tracingHandler k))
        ++ some (haltingHandler j) :: rest)) (pushTrace k ex) = _
    rw [ih j rest (pushTrace k ex)]
    simp [pushTrace]

theorem serveW_build_halt (pres : List Nat) :
    ∀ (j : Nat) (rest : List (Option HandlerF)) (t : List Nat),
      (build (pres.map (fun k => some (tracingHandler k))
          ++ some (haltingHandler j) :: rest)).serveW ⟨false, t⟩
        = Except.ok ⟨false, t ++ pres ++ [j]⟩ := by
  induction pres with
  | nil =>
    intro j rest t
    rw [List.append_nil]
    cases rest with
    | nil => rfl
    | cons r rs =>
      rw [List.map_nil, List.nil_append,
        build_cons_ne _ (r :: rs) (by simp)]
      obtain ⟨h2, n2, hb⟩ := build_isNode (r :: rs)
      show Mw.serveW (Mw.node (some (haltingHandler j)) (build (r :: rs))) ⟨false, t⟩ = _
      rw [hb]
      rfl
  | cons k ks ih =>
    intro j rest t
    rw [List.map_cons, List.cons_append, build_cons_ne _ _ (by simp)]
    obtain ⟨h2, n2, hb⟩ :=
      build_isNode (ks.map (fun k => some (tracingHandler k)) ++ some (haltingHandler j) :: rest)
    show Mw.serveW (Mw.node (some (tracingHandler k))
        (build (ks.map (fun k => some (tracingHandler k)) ++ some (haltingHandler j) :: rest)))
        ⟨false, t⟩ = _
    rw [hb]
    show Mw.serveW (Mw.node h2 n2) ⟨false, t ++ [k]⟩ = _
    rw [← hb, ih j rest (t ++ [k])]
    simp

theorem buildGo_oob (handlers : List (Option HandlerF)) (i : Nat)
    (h : handlers.length ≤ i) : buildGo i handlers = Except.error Err.indexOutOfRange := by
  rw [buildGo, List.getElem?_eq_none h]

theorem buildGo_ok_aux :
    ∀ (n i : Nat) (handlers : List (Option HandlerF)),
      handlers.length - i ≤ n → i < handlers.length →
      buildGo i handlers = Except.ok (build (handlers.drop i)) := by
  intro n
  induction n with
  | zero => intro i handlers h1 h2; omega
  | succ n ih =>
    intro i handlers h1 h2
    rw [buildGo, List.getElem?_eq_getElem h2]
    dsimp only
    by_cases hlt : i < handlers.length - 1
    · rw [dif_pos hlt, ih (i + 1) handlers (by omega) (by omega)]
      rw [List.drop_eq_getElem_cons h2,
        build_cons_ne _ _ (by simp [List.drop_eq_nil_iff]; omega)]
      rfl
    · rw [dif_neg hlt]
      have hdrop : handlers.drop (i + 1) = [] := List.drop_eq_nil_of_le (by omega)
      rw [List.drop_eq_getElem_cons h2, hdrop]
      rfl

theorem buildGo_ok (handlers : List (Option HandlerF)) (i : Nat)
    (h : i < handlers.length) :
    buildGo i handlers = Except.ok (build (handlers.drop i)) :=
  buildGo_ok_aux (handlers.length - i) i handlers le_rfl h

theorem useGo_ok (n : Negroni) (h : Option HandlerF) :
    n.useGo h = Except.ok { middleware := build (n.handlers ++ [h]),
                            handlers := n.handlers ++ [h] } := by
  rw [Negroni.useGo, buildGo_ok (n.handlers ++ [h]) 0 (by simp)]
  rfl

theorem use_some (n : Negroni) (h : HandlerF) :
    n.use (some h) = Except.ok { middleware := build (n.handlers ++ [some h]),
                                 handlers := n.handlers ++ [some h] } := rfl

theorem useAll_append (hs : List HandlerF) :
    ∀ pre : List (Option HandlerF),
      useAll (New pre) (hs.map some) = Except.ok (New (pre ++ hs.map some)) := by
  induction hs with
  | nil => intro pre; simp [useAll, New]
  | cons h t ih =>
    intro pre
    show useAll (New (pre ++ [some h])) (t.map some) = _
    rw [ih (pre ++ [some h])]
    simp [New]

theorem filter_isSome_map_some {α : Type} (l : List α) :
    (l.map some).filter Option.isSome = l.map some := by
  induction l with
  | nil => rfl
  | cons a t ih => simp [ih]

/-! The claims. -/

/-- C1: for every ordered handler list of length n, the chain built by the
part_000 build has exactly n+1 handler-wrapping nodes — the n handlers in
list order followed by the terminal sentinel wrapping the no-op handler
(the sentinel additionally stores the zero middleware value, which wraps no
handler); the empty list yields the sentinel directly; and dispatching any
exchange through the chain head runs the handlers in exactly list order
whenever every handler invokes its continuation exactly once (one-shot
handlers), as the trace instance makes explicit. -/
theorem build_chain_nodes_and_order :
    (∀ hs : List (Option HandlerF),
      (build hs).chain = hs ++ [some voidHandler, none]) ∧
    (∀ hs : List HandlerF,
      (build (hs.map some)).handlerNodes = hs.length + 1) ∧
    build [] = voidMiddleware ∧
    (∀ (acts : List (Exchange → Exchange)) (ex : Exchange),
      (build (acts.map fun a => some (oneShot a))).serve ex
        = Except.ok (acts.foldl (fun e a => a e) ex)) ∧
    (∀ (ids : List Nat) (w : Bool) (t : List Nat),
      (build (ids.map fun k => some (tracingHandler k))).serve ⟨w, t⟩
        = Except.ok ⟨w, t ++ ids⟩) := by
  refine ⟨chain_build, ?_, rfl, serve_build_oneShot, ?_⟩
  · intro hs
    simp [Mw.handlerNodes, chain_build, List.filter_append, filter_isSome_map_some]
  · intro ids w t
    have h1 := serve_build_oneShot (ids.map pushTrace) ⟨w, t⟩
    rw [List.map_map, foldl_pushTrace] at h1
    simpa [tracingHandler, Function.comp] using h1

/-- C2: if the handlers before position k each invoke their continuation
exactly once and the handler at position k withholds it, the handlers after
position k are never invoked: the dispatch result records exactly the first
k handler identities and is independent of the arbitrary tail rest, in both
the part_000 node semantics (serve) and the negroni.go written-checking node
semantics (serveW, starting from an unwritten sink). -/
theorem short_circuit_after_halt :
    (∀ (pres : List Nat) (j : Nat) (rest : List (Option HandlerF)) (ex : Exchange),
      (build (pres.map (fun k => some (tracingHandler k))
          ++ some (haltingHandler j) :: rest)).serve ex
        = Except.ok ⟨ex.written, ex.trace ++ pres ++ [j]⟩) ∧
    (∀ (pres : List Nat) (j : Nat) (rest : List (Option HandlerF)) (t : List Nat),
      (build (pres.map (fun k => some (tracingHandler k))
          ++ some (haltingHandler j) :: rest)).serveW ⟨false, t⟩
        = Except.ok ⟨false, t ++ pres ++ [j]⟩) :=
  ⟨serve_build_halt, serveW_build_halt⟩

/-- C3 counterexample: in the part_000 variant, dispatch performs no
written-flag check — a pipeline with one tracing handler, dispatched on an
exchange whose sink already shows output written, still invokes the handler
(the trace grows from empty to a singleton), refuting the claim that every
pipeline dispatch is a no-op once the written flag is set. -/
theorem dispatch_ignores_written_in_annotated_variant :
    (New [some (tracingHandler 0)]).serveHTTP ⟨true, []⟩ = Except.ok ⟨true, [0]⟩ ∧
    (⟨true, [0]⟩ : Exchange) ≠ (⟨true, []⟩ : Exchange) :=
  ⟨rfl, by decide⟩

/-- C3 amended: only the negroni.go variant guards on the written flag, and
it does so at every chain node: any node served on an exchange whose written
flag is true returns the exchange unchanged as a silent no-op, so a second
dispatch after output was written performs no handler invocations; chains
produced by build and the NewGo pipeline inherit this.  The part_000 variant
has no such check (see the counterexample). -/
theorem written_noop_in_pointer_variant :
    (∀ (h : Option HandlerF) (next : Mw) (t : List Nat),
      (Mw.node h next).serveW ⟨true, t⟩ = Except.ok ⟨true, t⟩) ∧
    (∀ (hs : List (Option HandlerF)) (t : List Nat),
      (build hs).serveW ⟨true, t⟩ = Except.ok ⟨true, t⟩) ∧
    (∀ t : List Nat, NewGo.serveHTTPGo ⟨true, t⟩ = Except.ok ⟨true, t⟩) := by
  refine ⟨fun h next t => rfl, ?_, fun t => rfl⟩
  intro hs t
  obtain ⟨h2, n2, hb⟩ := build_isNode hs
  rw [hb]
  rfl

/-- C4 counterexample: the negroni.go Use performs no nil check — appending
a nil handler to the fresh NewGo pipeline succeeds at registration time,
returning the updated pipeline instead of a fatal error, refuting the claim
that every Use rejects a nil handler immediately. -/
theorem useGo_accepts_nil :
    NewGo.useGo none
      = Except.ok { middleware := Mw.node none voidMiddleware,
                    handlers := [none] } := by
  rw [useGo_ok]
  rfl

/-- C4 amended: only the part_000 Use rejects a nil handler, with a panic
surfaced at registration time; for every non-nil handler it appends to the
list and rebuilds the chain in the same call.  The negroni.go Use appends
any handler, nil included, and also rebuilds synchronously (its failure is
deferred to dispatch time). -/
theorem use_nil_check_by_variant :
    (∀ n : Negroni, n.use none = Except.error Err.panicNilUse) ∧
    (∀ (n : Negroni) (h : HandlerF),
      n.use (some h) = Except.ok { middleware := build (n.handlers ++ [some h]),
                                   handlers := n.handlers ++ [some h] }) ∧
    (∀ (n : Negroni) (h : Option HandlerF),
      n.useGo h = Except.ok { middleware := build (n.handlers ++ [h]),
                              handlers := n.handlers ++ [h] }) :=
  ⟨fun _ => rfl, use_some, useGo_ok⟩

/-- C5: appending handlers one at a time through Use, starting from an
empty pipeline, yields exactly the pipeline New builds from the full list
at once — the same handler list and the same chain value, hence the same
visitation order on every dispatch. -/
theorem incremental_use_matches_bulk_new (hs : List HandlerF) :
    useAll (New []) (hs.map some) = Except.ok (New (hs.map some)) := by
  simpa using useAll_append hs []

/-- C6: With returns the receiver untouched (its body assigns no receiver
field) together with a fresh pipeline whose handler list is the
concatenation of the receiver list and the supplied handlers; appending a
further handler to the derived pipeline produces a pipeline built purely
from the derived list and leaves the receiver value out of the result. -/
theorem with_derives_independent_pipeline
    (n : Negroni) (hs : List (Option HandlerF)) (h : HandlerF) :
    (n.With hs).1 = n ∧
    (n.With hs).2.handlers = n.handlers ++ hs ∧
    (n.With hs).2.middleware = build (n.handlers ++ hs) ∧
    (n.With hs).2.use (some h)
      = Except.ok { middleware := build (n.handlers ++ hs ++ [some h]),
                    handlers := n.handlers ++ hs ++ [some h] } :=
  ⟨rfl, rfl, rfl, use_some (n.With hs).2 h⟩

/-- C7: Handlers returns the current ordered list, and a subsequent Use
produces a new list that extends it — the first len elements of the
post-Use list are exactly the snapshot handed out, so the snapshot contents
are never overwritten. -/
theorem handlers_snapshot_preserved (n : Negroni) (h : HandlerF) :
    n.use (some h) = Except.ok { middleware := build (n.Handlers ++ [some h]),
                                 handlers := n.Handlers ++ [some h] } ∧
    (n.Handlers ++ [some h]).take n.Handlers.length = n.Handlers :=
  ⟨use_some n h, List.take_left _ _⟩

/-- C8 counterexample: the negroni.go Run, with the PORT environment
variable non-empty (80) and HOST set (localhost), listens on localhost:80
rather than the claimed colon-PORT address, refuting the stated resolution
rule for that variant. -/
theorem runGo_prefixes_host :
    runAddressGo "80" "localhost" = "localhost:80" ∧
    runAddressGo "80" "localhost" ≠ ":" ++ "80" :=
  ⟨rfl, by decide⟩

/-- C8 amended: the part_000 Run resolves its address through detectAddress
with the precedence explicit argument, then colon-PORT when PORT is
non-empty, then DefaultAddress; the negroni.go Run accepts no address
argument and always listens on HOST, colon, PORT, with PORT defaulting to
3000 — so its address is colon-PORT only when HOST is empty. -/
theorem address_resolution_by_variant :
    (∀ (a : String) (rest : List String) (port : String),
      detectAddress (a :: rest) port = a) ∧
    (∀ port : String, port ≠ "" → detectAddress [] port = ":" ++ port) ∧
    detectAddress [] "" = DefaultAddress ∧
    (∀ host : String, runAddressGo "" host = host ++ ":" ++ "3000") ∧
    (∀ (port host : String), port ≠ "" → runAddressGo port host = host ++ ":" ++ port) := by
  refine ⟨fun a rest port => rfl, ?_, rfl, fun host => rfl, ?_⟩
  · intro port hp
    show (if port ≠ "" then ":" ++ port else DefaultAddress) = ":" ++ port
    rw [if_pos hp]
  · intro port host hp
    show host ++ ":" ++ (if port == "" then "3000" else port) = host ++ ":" ++ port
    rw [if_neg (by simpa using hp)]

/-- C8 amended, witness: the resolution rules evaluated at concrete
arguments and environments. -/
theorem address_resolution_by_variant_witness :
    detectAddress ["x:1"] "9" = "x:1" ∧
    detectAddress [] "9000" = ":" ++ "9000" ∧
    detectAddress [] "" = DefaultAddress ∧
    runAddressGo "" "h" = "h" ++ ":" ++ "3000" ∧
    runAddressGo "7000" "h" = "h" ++ ":" ++ "7000" :=
  ⟨address_resolution_by_variant.1 "x:1" [] "9",
   address_resolution_by_variant.2.1 "9000" (by decide),
   address_resolution_by_variant.2.2.1,
   address_resolution_by_variant.2.2.2.1 "h",
   address_resolution_by_variant.2.2.2.2 "7000" "h" (by decide)⟩

/-- C9: the negroni.go build(i, handlers) panics with an index out of range
exactly when i is not below the list length (so it is total only under the
precondition i < len), and the public operations keep the panic
unreachable: NewGo installs the sentinel chain directly without calling
build, and useGo calls build 0 only after appending, on a non-empty list,
so it always succeeds. -/
theorem build_go_partial_and_guarded :
    (∀ (handlers : List (Option HandlerF)) (i : Nat),
      handlers.length ≤ i → buildGo i handlers = Except.error Err.indexOutOfRange) ∧
    (∀ (handlers : List (Option HandlerF)) (i : Nat),
      i < handlers.length → buildGo i handlers = Except.ok (build (handlers.drop i))) ∧
    NewGo.middleware = Mw.node (some voidHandler) zeroMw ∧
    (∀ (n : Negroni) (h : Option HandlerF),
      n.useGo h = Except.ok { middleware := build (n.handlers ++ [h]),
                              handlers := n.handlers ++ [h] }) :=
  ⟨buildGo_oob, buildGo_ok, rfl, useGo_ok⟩

/-- C9 witness: the out-of-range branch fires on the empty list at index 0,
a one-element list builds, and a Use on the fresh pipeline succeeds. -/
theorem build_go_partial_and_guarded_witness :
    buildGo 0 ([] : List (Option HandlerF)) = Except.error Err.indexOutOfRange ∧
    buildGo 0 [some voidHandler] = Except.ok (build ([some voidHandler].drop 0)) ∧
    NewGo.useGo (some voidHandler)
      = Except.ok { middleware := build (NewGo.handlers ++ [some voidHandler]),
                    handlers := NewGo.handlers ++ [some voidHandler] } :=
  ⟨build_go_partial_and_guarded.1 [] 0 (by decide),
   build_go_partial_and_guarded.2.1 [some voidHandler] 0 (by decide),
   build_go_partial_and_guarded.2.2.2 NewGo (some voidHandler)⟩

/-- C10: the sentinel no-op handler never invokes its continuation — its
result is the exchange unchanged and is independent of whatever
continuation it is given — so every dispatch that reaches the sentinel ends
successfully there; invoking the zero-value node stored behind the sentinel
would instead panic (nil handler in the part_000 semantics, nil next
reference in the negroni.go semantics), which therefore never happens. -/
theorem sentinel_never_calls_continuation :
    (∀ ex : Exchange, voidMiddleware.serve ex = Except.ok ex) ∧
    (∀ (c c2 : Cont) (ex : Exchange), voidHandler c ex = voidHandler c2 ex) ∧
    (∀ ex : Exchange, zeroMw.serve ex = Except.error Err.nilHandler) ∧
    (∀ t : List Nat, sentinelGo.serveW ⟨false, t⟩ = Except.ok ⟨false, t⟩) ∧
    (∀ t : List Nat, zeroMw.serveW ⟨false, t⟩ = Except.error Err.nilNext) :=
  ⟨fun _ => rfl, fun _ _ _ => rfl, fun _ => rfl, fun _ => rfl, fun _ => rfl⟩

end Negronispec
